import Mathlib

/-!
Shallow embedding of the betterproto enumeration engine
(src/src/betterproto/enum.py): the metaclass EnumType (construction of the
per-type value and member maps, strict lookup, iteration, length, containment,
immutability) and the Enum base class (try_value, from_string, instance
immutability).

Modelling notes, each justified against CPython semantics:
 - Python object identity is modelled by an `iid` field assigned from a
   per-construction counter; two Instances are the same object exactly when
   they are equal as structures.
 - Python dicts are insertion-ordered association lists; assignment to an
   existing key overwrites in place (keeping the original position), a new
   key is appended.  `dictInsert` implements exactly that.
 - Every method of EnumType in the source carries `@classmethod`.  A
   classmethod found on the metaclass during special-method lookup for an
   operation on the class `cls` is bound to the OWNER of the lookup, i.e. to
   the derived metaclass `new_mcs`, not to `cls`.  Hence inside those
   methods `cls` denotes the metaclass; `cls._value_map_` and
   `cls._member_map_` still resolve to the per-type dicts (they live in the
   metaclass namespace, line 59 of the source), but `isinstance(member, cls)`
   tests membership of the METAclass.
 - `isinstance(x, T)` holds iff T occurs in the method resolution order of
   x's class.  Classes are represented by numeric ids; a constructed enum
   class has mro [clsId, Enum, int, object] and its metaclass has a fresh id
   not in that mro.
 - The class namespace handed to `EnumType.__new__` is produced by executing
   the class body: a duplicate member name is a second dict assignment and
   silently overwrites the first (`buildNamespace`).
 - The member filter (source lines 62-66) drops dunder names and
   descriptors; integer-valued members are never descriptors, so only the
   dunder test is modelled.
-/

namespace BetterprotoEnum

/-- Fixed class id of the Enum base class (present in every member's mro). -/
def enumBaseId : Nat := 1

/-- Fixed class id of Python's int (base of Enum). -/
def intBaseId : Nat := 2

/-- Fixed class id of Python's object. -/
def objectBaseId : Nat := 3

/-- An enum member object (or a synthesized unknown-value holder):
`iid` models object identity, `clsId`/`clsMro` identify its class and that
class's method resolution order, `name` is None for synthesized instances. -/
structure Instance where
  iid : Nat
  clsId : Nat
  clsMro : List Nat
  name : Option String
  value : Int
deriving DecidableEq

/-- The Python exception classes this module raises. -/
inductive PyError
  | valueError
  | typeError
  | attributeError
deriving DecidableEq

/-- Outcome of a call that either returns a value or raises an exception. -/
inductive PyResult (α : Type)
  | ok (a : α)
  | raises (e : PyError)
deriving DecidableEq

/-- Association-list lookup, i.e. `d[k]` returning None instead of KeyError. -/
def alookup {α β : Type} [DecidableEq α] : List (α × β) → α → Option β
  | [], _ => none
  | (k', v') :: rest, k => if k' = k then some v' else alookup rest k

/-- Python dict assignment `d[k] = v`: overwrite in place if the key exists
(keeping its original position), append otherwise. -/
def dictInsert {α β : Type} [DecidableEq α] : List (α × β) → α → β → List (α × β)
  | [], k, v => [(k, v)]
  | (k', v') :: rest, k, v =>
      if k' = k then (k, v) :: rest else (k', v') :: dictInsert rest k v

/-- Executing a class body: successive assignments into a fresh namespace
dict, so a repeated name overwrites the earlier binding. -/
def buildNamespace (decls : List (String × Int)) : List (String × Int) :=
  decls.foldl (fun ns p => dictInsert ns p.1 p.2) []

/-- `name.startswith("__")`: the first two characters are underscores. -/
def startsWithDunder (s : String) : Bool :=
  match s.data with
  | c1 :: c2 :: _ => c1 == '_' && c2 == '_'
  | _ => false

/-- Member filter of EnumType.__new__ (lines 62-66): keep namespace entries
whose name does not start with a double underscore (integer values are never
descriptors, so the descriptor test never fires for members). -/
def membersOf (ns : List (String × Int)) : List (String × Int) :=
  ns.filter (fun p => !(startsWithDunder p.1))

/-- Mutable state of the construction loop of EnumType.__new__:
`value_map` and `member_map` are the two dicts created at line 48-49,
`mcsAttrs` the attributes installed on the derived metaclass (line 83), and
`counter` the source of fresh object identities. -/
structure BuildState where
  value_map : List (Int × Instance)
  member_map : List (String × Instance)
  mcsAttrs : List (String × Instance)
  counter : Nat
deriving DecidableEq

/-- One iteration of the loop at lines 77-83 of EnumType.__new__:
reuse the interned Instance when the value is already a key of `value_map`,
otherwise create a fresh one; in both cases bind the name in `member_map`
and install the member as an attribute of the derived metaclass. -/
def buildStep (clsId : Nat) (clsMro : List Nat) (st : BuildState)
    (nv : String × Int) : BuildState :=
  match alookup st.value_map nv.2 with
  | some member =>
      { st with
        member_map := dictInsert st.member_map nv.1 member
        mcsAttrs := dictInsert st.mcsAttrs nv.1 member }
  | none =>
      let member : Instance := ⟨st.counter, clsId, clsMro, some nv.1, nv.2⟩
      { value_map := dictInsert st.value_map nv.2 member
        member_map := dictInsert st.member_map nv.1 member
        mcsAttrs := dictInsert st.mcsAttrs nv.1 member
        counter := st.counter + 1 }

/-- A constructed enumeration type: its class id, the id of its derived
metaclass (`new_mcs`), its mro, the two lookup dicts, the attributes
installed on the metaclass, and the identity counter after construction. -/
structure EnumModel where
  tname : String
  clsId : Nat
  metaId : Nat
  clsMro : List Nat
  value_map : List (Int × Instance)
  member_map : List (String × Instance)
  mcsAttrs : List (String × Instance)
  counter : Nat
deriving DecidableEq

/-- EnumType.__new__ (lines 45-85): build the namespace from the declared
class body, filter out non-members, then run the construction loop.
`typeId` distinguishes distinct enum types; the derived metaclass gets a
fresh id (clsId + 1) which never occurs in the class's mro
[clsId, Enum, int, object]. -/
def EnumType_new (tname : String) (typeId : Nat)
    (decls : List (String × Int)) : EnumModel :=
  let clsId := 10 + 2 * typeId
  let metaId := 11 + 2 * typeId
  let clsMro := [clsId, enumBaseId, intBaseId, objectBaseId]
  let members := membersOf (buildNamespace decls)
  let st := members.foldl (buildStep clsId clsMro) ⟨[], [], [], 0⟩
  ⟨tname, clsId, metaId, clsMro, st.value_map, st.member_map, st.mcsAttrs,
    st.counter⟩

/-- `isinstance(x, T)`: T's id occurs in the mro of x's class. -/
def isinstanceMro (objClsMro : List Nat) (targetId : Nat) : Bool :=
  objClsMro.contains targetId

/-- An argument to the strict constructor: either an integer, or a value
whose dict lookup raises (a non-integer-compatible input, TypeError). -/
inductive PyInput
  | intv (v : Int)
  | nonInt
deriving DecidableEq

/-- EnumType.__call__ (lines 89-94): `cls._value_map_[value]`, with KeyError
(absent key) and TypeError (unhashable input) both converted to ValueError. -/
def EnumType_call (E : EnumModel) (x : PyInput) : PyResult Instance :=
  match x with
  | .intv v =>
      match alookup E.value_map v with
      | some i => .ok i
      | none => .raises .valueError
  | .nonInt => .raises .valueError

/-- EnumType.__len__ (lines 124-126): `len(cls._member_map_)`. -/
def EnumType_len (E : EnumModel) : Nat :=
  E.member_map.length

/-- EnumType.__iter__ (lines 96-98): the values of `member_map` in
insertion order. -/
def EnumType_iter (E : EnumModel) : List Instance :=
  E.member_map.map Prod.snd

/-- EnumType.__reversed__ (lines 100-104): `reversed(member_map.values())`. -/
def EnumType_reversed (E : EnumModel) : List Instance :=
  (E.member_map.map Prod.snd).reverse

/-- EnumType.__contains__ (lines 136-138).  Because the method is a
classmethod on the metaclass, `cls` here is the derived metaclass, so
`isinstance(member, cls)` tests the candidate against the METAclass id;
`member.name in cls._member_map_` is False when the name is None. -/
def EnumType_contains (E : EnumModel) (member : Instance) : Bool :=
  isinstanceMro member.clsMro E.metaId
    && isinstanceMro member.clsMro enumBaseId
    && (match member.name with
        | some n => (alookup E.member_map n).isSome
        | none => false)

/-- EnumType.__setattr__ (lines 128-130): unconditionally raise
AttributeError; the maps are never touched (the raise precedes any write).
Returned as (exception, post-state). -/
def EnumType_setattr (E : EnumModel) (_k : String) (_v : Int) :
    PyError × EnumModel :=
  (.attributeError, E)

/-- EnumType.__delattr__ (lines 132-134): unconditionally raise
AttributeError. -/
def EnumType_delattr (E : EnumModel) (_k : String) : PyError × EnumModel :=
  (.attributeError, E)

/-- Enum.__setattr__ (lines 163-166): unconditionally raise AttributeError;
the instance is unchanged. -/
def Enum_setattr (i : Instance) (_k : String) (_v : Int) : PyError × Instance :=
  (.attributeError, i)

/-- Enum.__delattr__ (lines 168-171): unconditionally raise AttributeError. -/
def Enum_delattr (i : Instance) (_k : String) : PyError × Instance :=
  (.attributeError, i)

/-- Attribute access `EnumType.<name>` for a member name: members are
installed on the derived metaclass by `type.__setattr__(new_mcs, name,
member)` at line 83 and found there by class attribute lookup. -/
def EnumType_getattr (E : EnumModel) (n : String) : Option Instance :=
  alookup E.mcsAttrs n

/-- `cls.__new__(cls, name=None, value=value)` in the fallback of try_value:
a fresh, uninterned instance of the class with no name.  In the path where
the lookup succeeded and the defensive check raised, `value` has been
rebound to the found member, whose integer value is the looked-up key, so
the numeric value is `v` in both paths. -/
def freshInstance (E : EnumModel) (v : Int) : Instance :=
  ⟨E.counter, E.clsId, E.clsMro, none, v⟩

/-- Enum.try_value (lines 179-200): look the value up in `cls._value_map_`;
on success check `isinstance(value, type(cls))` — `type(cls)` is the
metaclass, so this tests the member against the metaclass id — and raise
TypeError on failure.  KeyError and that TypeError are both caught by the
`except` clause, which returns a fresh unnamed instance. -/
def Enum_try_value (E : EnumModel) (v : Int) : Instance :=
  match alookup E.value_map v with
  | some member =>
      if isinstanceMro member.clsMro E.metaId then member
      else freshInstance E v
  | none => freshInstance E v

/-- Enum.from_string (lines 202-222): look the name up in
`cls._member_map_`; on success check `isinstance(member, type(cls))` —
again against the metaclass id — and raise TypeError on failure.  Only
KeyError is caught (and re-raised as ValueError); the TypeError
propagates. -/
def Enum_from_string (E : EnumModel) (n : String) : PyResult Instance :=
  match alookup E.member_map n with
  | some member =>
      if isinstanceMro member.clsMro E.metaId then .ok member
      else .raises .typeError
  | none => .raises .valueError

/-- The running example of the spec: declarations
[("RED", 0), ("GREEN", 1), ("CRIMSON", 0)] with an aliased value. -/
def colorDecls : List (String × Int) :=
  [("RED", 0), ("GREEN", 1), ("CRIMSON", 0)]

/-- The enum type constructed from the running example. -/
def CColor : EnumModel :=
  EnumType_new "Color" 0 colorDecls

/-- The interned member for value 0 of the running example. -/
def redInst : Instance :=
  ⟨0, 10, [10, enumBaseId, intBaseId, objectBaseId], some "RED", 0⟩

/-! Association-list lemmas about `alookup` and `dictInsert`. -/

theorem alookup_dictInsert_self {α β : Type} [DecidableEq α]
    (m : List (α × β)) (k : α) (v : β) :
    alookup (dictInsert m k v) k = some v := by
  induction m with
  | nil => simp [dictInsert, alookup]
  | cons p rest ih =>
      obtain ⟨k', v'⟩ := p
      by_cases h : k' = k
      · simp [dictInsert, h, alookup]
      · simp [dictInsert, h, alookup, ih]

theorem alookup_dictInsert_ne {α β : Type} [DecidableEq α]
    (m : List (α × β)) (k k₀ : α) (v : β) (h : k₀ ≠ k) :
    alookup (dictInsert m k v) k₀ = alookup m k₀ := by
  have h' : ¬k = k₀ := fun hh => h (Eq.symm hh)
  induction m with
  | nil => simp [dictInsert, alookup, h']
  | cons p rest ih =>
      obtain ⟨k', v'⟩ := p
      by_cases hk : k' = k
      · subst hk
        simp [dictInsert, alookup, h']
      · simp only [dictInsert, if_neg hk, alookup]
        by_cases hk₀ : k' = k₀
        · simp [hk₀]
        · simp [hk₀, ih]

theorem dictInsert_eq_append {α β : Type} [DecidableEq α]
    (m : List (α × β)) (k : α) (v : β) (h : alookup m k = none) :
    dictInsert m k v = m ++ [(k, v)] := by
  induction m with
  | nil => simp [dictInsert]
  | cons p rest ih =>
      obtain ⟨k', v'⟩ := p
      by_cases hk : k' = k
      · simp [alookup, hk] at h
      · simp only [alookup, if_neg hk] at h
        simp [dictInsert, hk, ih h]

theorem mem_of_alookup_eq_some {α β : Type} [DecidableEq α]
    (m : List (α × β)) (k : α) (v : β) (h : alookup m k = some v) :
    (k, v) ∈ m := by
  induction m with
  | nil => simp [alookup] at h
  | cons p rest ih =>
      obtain ⟨k', v'⟩ := p
      by_cases hk : k' = k
      · subst hk
        simp [alookup] at h
        simp [h]
      · simp only [alookup, if_neg hk] at h
        exact List.mem_cons_of_mem _ (ih h)

theorem alookup_eq_none_of_not_mem_keys {α β : Type} [DecidableEq α]
    (m : List (α × β)) (k : α) (h : k ∉ m.map Prod.fst) :
    alookup m k = none := by
  induction m with
  | nil => rfl
  | cons p rest ih =>
      obtain ⟨k', v'⟩ := p
      simp only [List.map_cons, List.mem_cons] at h
      push_neg at h
      have h1 : ¬k' = k := fun hh => h.1 (Eq.symm hh)
      simp [alookup, h1, ih h.2]

theorem not_mem_keys_of_alookup_eq_none {α β : Type} [DecidableEq α]
    (m : List (α × β)) (k : α) (h : alookup m k = none) :
    k ∉ m.map Prod.fst := by
  induction m with
  | nil => simp
  | cons p rest ih =>
      obtain ⟨k', v'⟩ := p
      by_cases hk : k' = k
      · simp [alookup, hk] at h
      · simp only [alookup, if_neg hk] at h
        simp only [List.map_cons, List.mem_cons]
        push_neg
        exact ⟨fun hh => hk hh.symm, ih h⟩

theorem keys_dictInsert_of_alookup_some {α β : Type} [DecidableEq α]
    (m : List (α × β)) (k : α) (v w : β) (h : alookup m k = some w) :
    (dictInsert m k v).map Prod.fst = m.map Prod.fst := by
  induction m with
  | nil => simp [alookup] at h
  | cons p rest ih =>
      obtain ⟨k', v'⟩ := p
      by_cases hk : k' = k
      · simp [dictInsert, hk]
      · simp only [alookup, if_neg hk] at h
        simp [dictInsert, hk, ih h]

theorem keys_dictInsert_nodup {α β : Type} [DecidableEq α]
    (m : List (α × β)) (k : α) (v : β)
    (h : (m.map Prod.fst).Nodup) :
    ((dictInsert m k v).map Prod.fst).Nodup := by
  cases hl : alookup m k with
  | some w => rw [keys_dictInsert_of_alookup_some m k v w hl]; exact h
  | none =>
      rw [dictInsert_eq_append m k v hl]
      simp only [List.map_append, List.map_cons, List.map_nil]
      rw [List.nodup_append]
      refine ⟨h, List.nodup_singleton k, ?_⟩
      intro a ha hak
      have hak' : a = k := by simpa using hak
      subst hak'
      exact not_mem_keys_of_alookup_eq_none m a hl ha

/-! Invariants of the construction loop of EnumType.__new__. -/

/-- Facts maintained by every iteration of the loop at lines 77-83:
the metaclass attributes mirror `member_map`; every `value_map` entry is
keyed by its instance's value and carries the class's id and mro; every
`member_map` entry's instance is the interned instance for its value; every
interned instance is reachable from `member_map`; `value_map` never has
more entries than `member_map`. -/
structure BuildInv (clsId : Nat) (clsMro : List Nat) (st : BuildState) :
    Prop where
  attrs_eq : st.mcsAttrs = st.member_map
  vm_val : ∀ p ∈ st.value_map, p.2.value = p.1
  vm_cls : ∀ p ∈ st.value_map, p.2.clsId = clsId ∧ p.2.clsMro = clsMro
  mm_link : ∀ p ∈ st.member_map, alookup st.value_map p.2.value = some p.2
  vm_range : ∀ p ∈ st.value_map, p.2 ∈ st.member_map.map Prod.snd
  len_le : st.value_map.length ≤ st.member_map.length

theorem buildInv_fold (clsId : Nat) (clsMro : List Nat) :
    ∀ (l : List (String × Int)) (st : BuildState),
    BuildInv clsId clsMro st →
    (∀ p ∈ l, alookup st.member_map p.1 = none) →
    (l.map Prod.fst).Nodup →
    BuildInv clsId clsMro (l.foldl (buildStep clsId clsMro) st) ∧
      (l.foldl (buildStep clsId clsMro) st).member_map.map Prod.fst
        = st.member_map.map Prod.fst ++ l.map Prod.fst := by
  intro l
  induction l with
  | nil => intro st hinv _ _; simpa using hinv
  | cons nv rest ih =>
      intro st hinv hfresh hnodup
      obtain ⟨n, v⟩ := nv
      have hfn : alookup st.member_map n = none := hfresh (n, v) (List.mem_cons_self _ _)
      have hmm' : dictInsert st.member_map n = fun m => st.member_map ++ [(n, m)] := by
        funext m
        exact dictInsert_eq_append st.member_map n m hfn
      have hnodup_rest : (rest.map Prod.fst).Nodup := by
        simpa using hnodup.of_cons
      have hn_rest : ∀ p ∈ rest, p.1 ≠ n := by
        intro p hp heq
        have : n ∈ rest.map Prod.fst := heq ▸ List.mem_map_of_mem Prod.fst hp
        exact (List.nodup_cons.mp (by simpa using hnodup)).1 this
      set st' := buildStep clsId clsMro st (n, v) with hst'
      have hstep : BuildInv clsId clsMro st' ∧
          ∃ m : Instance, st'.member_map = st.member_map ++ [(n, m)] := by
        rw [hst']
        unfold buildStep
        cases hvl : alookup st.value_map v with
        | some member =>
            simp only
            constructor
            · constructor
              · rw [hinv.attrs_eq]
              · exact hinv.vm_val
              · exact hinv.vm_cls
              · intro p hp
                rw [dictInsert_eq_append st.member_map n member hfn] at hp
                rcases List.mem_append.mp hp with hl | hr
                · exact hinv.mm_link p hl
                · have hp' : p = (n, member) := by simpa using hr
                  subst hp'
                  have hv : member.value = v :=
                    hinv.vm_val (v, member) (mem_of_alookup_eq_some _ _ _ hvl)
                  simpa [hv] using hvl
              · intro p hp
                rw [dictInsert_eq_append st.member_map n member hfn]
                simp only [List.map_append, List.mem_append]
                exact Or.inl (hinv.vm_range p hp)
              · rw [dictInsert_eq_append st.member_map n member hfn]
                simp only [List.length_append, List.length_cons, List.length_nil]
                have hle := hinv.len_le
                omega
            · exact ⟨member, dictInsert_eq_append st.member_map n member hfn⟩
        | none =>
            simp only
            set member : Instance := ⟨st.counter, clsId, clsMro, some n, v⟩ with hmem
            have hvm' : dictInsert st.value_map v member = st.value_map ++ [(v, member)] :=
              dictInsert_eq_append st.value_map v member hvl
            constructor
            · constructor
              · simp only [hinv.attrs_eq]
              · intro p hp
                rw [hvm'] at hp
                rcases List.mem_append.mp hp with hl | hr
                · exact hinv.vm_val p hl
                · have hp' : p = (v, member) := by simpa using hr
                  subst hp'
                  simp [hmem]
              · intro p hp
                rw [hvm'] at hp
                rcases List.mem_append.mp hp with hl | hr
                · exact hinv.vm_cls p hl
                · have hp' : p = (v, member) := by simpa using hr
                  subst hp'
                  simp [hmem]
              · intro p hp
                rw [dictInsert_eq_append st.member_map n member hfn] at hp
                rcases List.mem_append.mp hp with hl | hr
                · have hold := hinv.mm_link p hl
                  have hne : p.2.value ≠ v := by
                    intro hv
                    rw [hv] at hold
                    rw [hvl] at hold
                    exact Option.noConfusion hold
                  rw [hvm']
                  rw [show st.value_map ++ [(v, member)]
                        = dictInsert st.value_map v member from hvm'.symm]
                  rw [alookup_dictInsert_ne st.value_map v p.2.value member hne]
                  exact hold
                · have hp' : p = (n, member) := by simpa using hr
                  subst hp'
                  have : member.value = v := by simp [hmem]
                  rw [this]
                  exact alookup_dictInsert_self st.value_map v member
              · intro p hp
                rw [hvm'] at hp
                rw [dictInsert_eq_append st.member_map n member hfn]
                simp only [List.map_append, List.mem_append]
                rcases List.mem_append.mp hp with hl | hr
                · exact Or.inl (hinv.vm_range p hl)
                · have hp' : p = (v, member) := by simpa using hr
                  subst hp'
                  simp
              · rw [hvm', dictInsert_eq_append st.member_map n member hfn]
                simp only [List.length_append, List.length_cons, List.length_nil]
                have hle := hinv.len_le
                omega
            · exact ⟨member, dictInsert_eq_append st.member_map n member hfn⟩
      obtain ⟨hinv', m, hmm⟩ := hstep
      have hfresh' : ∀ p ∈ rest, alookup st'.member_map p.1 = none := by
        intro p hp
        rw [hmm]
        have h1 : alookup (st.member_map ++ [(n, m)]) p.1
            = alookup (dictInsert st.member_map n m) p.1 := by
          rw [dictInsert_eq_append st.member_map n m hfn]
        rw [h1, alookup_dictInsert_ne st.member_map n p.1 m (hn_rest p hp)]
        exact hfresh p (List.mem_cons_of_mem _ hp)
      have hrec := ih st' hinv' hfresh' hnodup_rest
      constructor
      · simpa [List.foldl_cons, hst'] using hrec.1
      · have : (rest.foldl (buildStep clsId clsMro) st').member_map.map Prod.fst
            = st'.member_map.map Prod.fst ++ rest.map Prod.fst := hrec.2
        simp only [List.foldl_cons, ← hst']
        rw [this, hmm]
        simp

theorem keys_buildNamespace_aux (decls : List (String × Int)) :
    ∀ acc : List (String × Int), (acc.map Prod.fst).Nodup →
    ((decls.foldl (fun ns p => dictInsert ns p.1 p.2) acc).map Prod.fst).Nodup := by
  induction decls with
  | nil => intro acc h; simpa using h
  | cons p rest ih =>
      intro acc h
      simp only [List.foldl_cons]
      exact ih _ (keys_dictInsert_nodup acc p.1 p.2 h)

/-- Class-namespace keys never repeat: a duplicate assignment overwrites. -/
theorem keys_buildNamespace_nodup (decls : List (String × Int)) :
    ((buildNamespace decls).map Prod.fst).Nodup :=
  keys_buildNamespace_aux decls [] (by simp)

theorem keys_membersOf_nodup (ns : List (String × Int))
    (h : (ns.map Prod.fst).Nodup) :
    ((membersOf ns).map Prod.fst).Nodup :=
  List.Nodup.sublist (List.Sublist.map Prod.fst (List.filter_sublist ns)) h

theorem foldl_dictInsert_append :
    ∀ (decls acc : List (String × Int)), ((acc ++ decls).map Prod.fst).Nodup →
    decls.foldl (fun ns p => dictInsert ns p.1 p.2) acc = acc ++ decls := by
  intro decls
  induction decls with
  | nil => intro acc _; simp
  | cons p rest ih =>
      intro acc h
      obtain ⟨k, v⟩ := p
      have hknot : k ∉ acc.map Prod.fst := by
        intro hmem
        have h' : ((acc.map Prod.fst) ++ (k :: rest.map Prod.fst)).Nodup := by
          simpa using h
        exact (List.nodup_append.mp h').2.2 hmem (by simp)
      have hins : dictInsert acc k v = acc ++ [(k, v)] :=
        dictInsert_eq_append acc k v (alookup_eq_none_of_not_mem_keys acc k hknot)
      simp only [List.foldl_cons]
      rw [hins, ih (acc ++ [(k, v)]) (by simpa using h)]
      simp

/-- With distinct declared names the class namespace is the declaration
list itself. -/
theorem buildNamespace_eq_self (decls : List (String × Int))
    (h : (decls.map Prod.fst).Nodup) :
    buildNamespace decls = decls := by
  have := foldl_dictInsert_append decls [] (by simpa using h)
  simpa [buildNamespace] using this

/-- With no dunder names the member filter keeps every declaration. -/
theorem membersOf_eq_self (ns : List (String × Int))
    (h : ∀ p ∈ ns, startsWithDunder p.1 = false) :
    membersOf ns = ns := by
  unfold membersOf
  apply List.filter_eq_self.mpr
  intro p hp
  simp [h p hp]

/-- The construction-loop invariants, read off a constructed EnumModel:
the metaclass attributes equal the member map; interned instances are keyed
by their value and belong to the constructed class; every declared name is
bound to the interned instance of its value; every interned instance is
bound to some name; the value map is never larger than the member map; the
member names are the filtered namespace keys in order. -/
theorem new_invariants (t : String) (tid : Nat) (decls : List (String × Int)) :
    (EnumType_new t tid decls).mcsAttrs = (EnumType_new t tid decls).member_map ∧
    (∀ p ∈ (EnumType_new t tid decls).value_map, p.2.value = p.1) ∧
    (∀ p ∈ (EnumType_new t tid decls).value_map,
      p.2.clsId = (EnumType_new t tid decls).clsId ∧
      p.2.clsMro = (EnumType_new t tid decls).clsMro) ∧
    (∀ p ∈ (EnumType_new t tid decls).member_map,
      alookup (EnumType_new t tid decls).value_map p.2.value = some p.2) ∧
    (∀ p ∈ (EnumType_new t tid decls).value_map,
      p.2 ∈ (EnumType_new t tid decls).member_map.map Prod.snd) ∧
    (EnumType_new t tid decls).value_map.length
      ≤ (EnumType_new t tid decls).member_map.length ∧
    (EnumType_new t tid decls).member_map.map Prod.fst
      = (membersOf (buildNamespace decls)).map Prod.fst := by
  have h0 : BuildInv (10 + 2 * tid)
      [10 + 2 * tid, enumBaseId, intBaseId, objectBaseId] ⟨[], [], [], 0⟩ := by
    refine ⟨rfl, ?_, ?_, ?_, ?_, ?_⟩ <;> simp [alookup]
  have hfold := buildInv_fold (10 + 2 * tid)
      [10 + 2 * tid, enumBaseId, intBaseId, objectBaseId]
      (membersOf (buildNamespace decls)) ⟨[], [], [], 0⟩ h0
      (fun p _ => rfl)
      (keys_membersOf_nodup _ (keys_buildNamespace_nodup decls))
  obtain ⟨hinv, hkeys⟩ := hfold
  exact ⟨hinv.attrs_eq, hinv.vm_val, hinv.vm_cls, hinv.mm_link, hinv.vm_range,
    hinv.len_le, by simpa using hkeys⟩

/-! Claim theorems. -/

/-- C1: the claim says try_value returns the interned Instance for a
declared value (and that a type mismatch raises).  The code violates this:
for Color with RED = 0, the value 0 is interned as `redInst`, yet
try_value(0) returns a freshly synthesized unnamed instance, because the
defensive `isinstance(value, type(cls))` check compares the member against
the metaclass (always false) and the TypeError it raises is swallowed by
the `except (KeyError, TypeError)` fallback. -/
theorem C1_try_value_not_interned :
    alookup CColor.value_map 0 = some redInst ∧
    Enum_try_value CColor 0 = ⟨2, 10, [10, 1, 2, 3], none, 0⟩ ∧
    Enum_try_value CColor 0 ≠ redInst ∧
    (Enum_try_value CColor 0).name = none ∧
    (Enum_try_value CColor 0).value = 0 := by
  decide

/-- C2: the claim says from_string succeeds on every declared member name.
The code violates this: for Color with RED = 0 the name "RED" is bound in
member_map, yet from_string("RED") raises TypeError (the defensive
`isinstance(member, type(cls))` check compares against the metaclass and
its TypeError is not caught), so from_string never returns for any name;
an absent name raises ValueError. -/
theorem C2_from_string_always_raises :
    alookup CColor.member_map "RED" = some redInst ∧
    Enum_from_string CColor "RED" = .raises .typeError ∧
    Enum_from_string CColor "MAUVE" = .raises .valueError := by
  decide

/-- C3: the strict lookup EnumType(x) returns the interned Instance when x
is a key of value_map, raises ValueError (UnknownValueError) for every
integer absent from value_map, and raises ValueError for a
non-integer-compatible input. -/
theorem C3_strict_lookup (t : String) (tid : Nat) (decls : List (String × Int))
    (v : Int) :
    (∀ i, alookup (EnumType_new t tid decls).value_map v = some i →
      EnumType_call (EnumType_new t tid decls) (.intv v) = .ok i) ∧
    (alookup (EnumType_new t tid decls).value_map v = none →
      EnumType_call (EnumType_new t tid decls) (.intv v) = .raises .valueError) ∧
    EnumType_call (EnumType_new t tid decls) .nonInt = .raises .valueError := by
  refine ⟨?_, ?_, rfl⟩
  · intro i h
    simp [EnumType_call, h]
  · intro h
    simp [EnumType_call, h]

theorem C3_strict_lookup_witness :
    EnumType_call CColor (.intv 0) = .ok redInst ∧
    EnumType_call CColor (.intv 2) = .raises .valueError :=
  ⟨(C3_strict_lookup "Color" 0 colorDecls 0).1 redInst (by decide),
   (C3_strict_lookup "Color" 0 colorDecls 2).2.1 (by decide)⟩

/-- C4 counterexample: the claim says declaring the same name with two
different values fails with DuplicateNameError and such a type is never
produced.  EnumType.__new__ contains no duplicate-name check and no raise:
the class namespace collapses the duplicate (the later assignment
overwrites), construction succeeds, and the type binds RED to value 1. -/
theorem C4_counterexample :
    (EnumType_new "Dup" 1 [("RED", 0), ("RED", 1)]).member_map
      = [("RED", ⟨0, 12, [12, 1, 2, 3], some "RED", 1⟩)] ∧
    (EnumType_new "Dup" 1 [("RED", 0), ("RED", 1)]).value_map
      = [(1, ⟨0, 12, [12, 1, 2, 3], some "RED", 1⟩)] := by
  decide

/-- C4 amended: declaring the same member name twice with different values
never fails; the class namespace keeps only the last declared value for the
name, and the constructed type binds the name to that last value. -/
theorem C4_amended_last_wins (t : String) (tid : Nat) (n : String)
    (v1 v2 : Int) (h : startsWithDunder n = false) :
    (EnumType_new t tid [(n, v1), (n, v2)]).member_map
      = [(n, ⟨0, 10 + 2 * tid,
          [10 + 2 * tid, enumBaseId, intBaseId, objectBaseId], some n, v2⟩)] := by
  have hns : buildNamespace [(n, v1), (n, v2)] = [(n, v2)] := by
    simp [buildNamespace, dictInsert]
  have hmem : membersOf [(n, v2)] = [(n, v2)] := by
    simp [membersOf, h]
  show ((membersOf (buildNamespace [(n, v1), (n, v2)])).foldl
      (buildStep (10 + 2 * tid)
        [10 + 2 * tid, enumBaseId, intBaseId, objectBaseId])
      ⟨[], [], [], 0⟩).member_map
    = [(n, ⟨0, 10 + 2 * tid,
        [10 + 2 * tid, enumBaseId, intBaseId, objectBaseId], some n, v2⟩)]
  rw [hns, hmem]
  simp [buildStep, alookup, dictInsert]

theorem C4_amended_last_wins_witness :
    (EnumType_new "Dup2" 2 [("X", 5), ("X", 7)]).member_map
      = [("X", ⟨0, 14, [14, 1, 2, 3], some "X", 7⟩)] :=
  C4_amended_last_wins "Dup2" 2 "X" 5 7 (by decide)

/-- C5 counterexample: the claim says value_map and member_map always have
the same cardinality, even under aliasing.  For the aliased declarations
[("RED", 0), ("GREEN", 1), ("CRIMSON", 0)] the value map has 2 entries and
the member map 3. -/
theorem C5_cardinality_counterexample :
    CColor.value_map.length = 2 ∧ CColor.member_map.length = 3 ∧
    ¬CColor.value_map.length = CColor.member_map.length := by
  decide

/-- C5 amended: value_map and member_map refer to the same set of
Instances, and value_map never has more entries than member_map; the
cardinalities can differ when several names alias one value. -/
theorem C5_amended_same_instances (t : String) (tid : Nat)
    (decls : List (String × Int)) :
    (∀ i : Instance,
      i ∈ (EnumType_new t tid decls).value_map.map Prod.snd ↔
      i ∈ (EnumType_new t tid decls).member_map.map Prod.snd) ∧
    (EnumType_new t tid decls).value_map.length
      ≤ (EnumType_new t tid decls).member_map.length := by
  obtain ⟨_, _, _, hlink, hrange, hlen, _⟩ := new_invariants t tid decls
  refine ⟨?_, hlen⟩
  intro i
  constructor
  · intro hi
    rcases List.mem_map.mp hi with ⟨p, hp, hpi⟩
    exact hpi ▸ hrange p hp
  · intro hi
    rcases List.mem_map.mp hi with ⟨p, hp, hpi⟩
    have hmem := mem_of_alookup_eq_some _ _ _ (hlink p hp)
    exact hpi ▸ List.mem_map_of_mem Prod.snd hmem

theorem C5_amended_same_instances_witness :
    redInst ∈ CColor.member_map.map Prod.snd ∧
    CColor.value_map.length ≤ CColor.member_map.length :=
  ⟨((C5_amended_same_instances "Color" 0 colorDecls).1 redInst).mp (by decide),
   (C5_amended_same_instances "Color" 0 colorDecls).2⟩

/-- C6: the claim says the membership test is true for every declared
member of the type.  The code violates this: because `__contains__` is a
classmethod on the metaclass, `cls` inside it is the derived metaclass, so
`isinstance(member, cls)` tests the candidate against the metaclass and is
false for every Instance; the interned member RED of Color (whose name is
in member_map and whose class is Color) is reported as not contained. -/
theorem C6_contains_always_false :
    alookup CColor.member_map "RED" = some redInst ∧
    redInst.clsId = CColor.clsId ∧
    EnumType_contains CColor redInst = false := by
  decide

/-- C7: during construction, a (name, value) pair whose value is already
interned reuses the first-seen Instance: any two names bound to instances
of equal value are bound to the identical Instance. -/
theorem C7_alias_interning (t : String) (tid : Nat) (decls : List (String × Int))
    (n1 n2 : String) (i1 i2 : Instance)
    (h1 : alookup (EnumType_new t tid decls).member_map n1 = some i1)
    (h2 : alookup (EnumType_new t tid decls).member_map n2 = some i2)
    (hv : i1.value = i2.value) :
    i1 = i2 := by
  obtain ⟨_, _, _, hlink, _, _, _⟩ := new_invariants t tid decls
  have e1 := hlink (n1, i1) (mem_of_alookup_eq_some _ _ _ h1)
  have e2 := hlink (n2, i2) (mem_of_alookup_eq_some _ _ _ h2)
  rw [hv] at e1
  exact Option.some.inj (e1.symm.trans e2)

theorem C7_alias_interning_witness :
    alookup CColor.member_map "RED" = some redInst ∧
    alookup CColor.member_map "CRIMSON" = some redInst ∧
    alookup CColor.value_map 0 = some redInst ∧
    redInst = redInst :=
  ⟨by decide, by decide, by decide,
   C7_alias_interning "Color" 0 colorDecls "RED" "CRIMSON" redInst redInst
     (by decide) (by decide) rfl⟩

/-- C8: after construction every attempt to set or delete an attribute on
the EnumType or on any Instance raises AttributeError
(ImmutableMutationError), and the type (hence value_map and member_map) and
the instance are unchanged by the failed attempt. -/
theorem C8_immutability (t : String) (tid : Nat) (decls : List (String × Int))
    (k : String) (v : Int) (i : Instance) :
    (EnumType_setattr (EnumType_new t tid decls) k v).1 = .attributeError ∧
    (EnumType_setattr (EnumType_new t tid decls) k v).2 = EnumType_new t tid decls ∧
    (EnumType_delattr (EnumType_new t tid decls) k).1 = .attributeError ∧
    (EnumType_delattr (EnumType_new t tid decls) k).2 = EnumType_new t tid decls ∧
    (Enum_setattr i k v).1 = .attributeError ∧
    (Enum_setattr i k v).2 = i ∧
    (Enum_delattr i k).1 = .attributeError ∧
    (Enum_delattr i k).2 = i :=
  ⟨rfl, rfl, rfl, rfl, rfl, rfl, rfl, rfl⟩

/-- C9: len(EnumType) equals the number of declared names (aliases each
count), iteration yields exactly that many Instances with the names in
declaration order, and reverse iteration is the same sequence reversed. -/
theorem C9_len_iter_order (t : String) (tid : Nat) (decls : List (String × Int))
    (hnd : (decls.map Prod.fst).Nodup)
    (hd : ∀ p ∈ decls, startsWithDunder p.1 = false) :
    EnumType_len (EnumType_new t tid decls) = decls.length ∧
    (EnumType_iter (EnumType_new t tid decls)).length = decls.length ∧
    (EnumType_new t tid decls).member_map.map Prod.fst = decls.map Prod.fst ∧
    EnumType_reversed (EnumType_new t tid decls)
      = (EnumType_iter (EnumType_new t tid decls)).reverse := by
  obtain ⟨_, _, _, _, _, _, hkeys⟩ := new_invariants t tid decls
  rw [buildNamespace_eq_self decls hnd, membersOf_eq_self decls hd] at hkeys
  have hlen : (EnumType_new t tid decls).member_map.length = decls.length := by
    have := congrArg List.length hkeys
    simpa using this
  refine ⟨hlen, ?_, hkeys, rfl⟩
  simpa [EnumType_iter] using hlen

theorem C9_len_iter_order_witness :
    EnumType_len CColor = 3 ∧ (EnumType_iter CColor).length = 3 ∧
    CColor.member_map.map Prod.fst = ["RED", "GREEN", "CRIMSON"] ∧
    EnumType_reversed CColor = (EnumType_iter CColor).reverse :=
  C9_len_iter_order "Color" 0 colorDecls (by decide) (by decide)

/-- C10: every declared member name is exposed as an attribute of the
EnumType (installed on the per-type metaclass at construction), and that
attribute is exactly the Instance bound to the name in member_map. -/
theorem C10_member_attributes (t : String) (tid : Nat)
    (decls : List (String × Int)) (n : String) :
    EnumType_getattr (EnumType_new t tid decls) n
      = alookup (EnumType_new t tid decls).member_map n := by
  obtain ⟨hattrs, _⟩ := new_invariants t tid decls
  simp [EnumType_getattr, hattrs]

end BetterprotoEnum
